import Mathlib

/-!
Shallow embedding of the rule-execution core of the alerting engine
(`elastalert/elastalert.py`), together with theorems settling the frozen
claims about its specification.

Modelling conventions:
* instants and durations are rationals (seconds) — `ℚ` — or integers `ℤ`
  where only comparisons and additions occur;
* Python dictionaries are association lists (`List (k × v)`) with
  `List.lookup`; an update is modelled as erase-then-cons, which is
  lookup-equivalent to the in-place update of a `dict`;
* fallible operations return `Option`/`Except`;
* text is `String`, or `List Char` where character-level slicing matters
  (Python `str` slicing).
-/

namespace ElastAlert

/-! ### Time cursor logic (`set_starttime`), plain-search mode

Embeds `ElastAlerter.set_starttime` restricted to the mode the claim C1
scopes to: no `use_count_query`, no `use_terms_query`, no
`scan_entire_timeframe`, and no `aggregation_query_element` (so the two
`adjust_start_time_*` helpers are no-ops). -/

/-- Mutable cursor state carried on a rule dict, as consulted by
`set_starttime`. `none` models key absence in the Python dict. -/
structure RuleCursorState where
  starttime : Option ℤ
  minimum_starttime : Option ℤ
  previous_endtime : Option ℤ
  buffer_time : ℤ
  deriving Repr, DecidableEq

/-- The `if/elif/else` ladder of `set_starttime` in plain-search mode:
`buffer_delta = endtime - buffer_time`; if `minimum_starttime` is present
and `> buffer_delta`, use it; elif `previous_endtime` is present and
`< buffer_delta`, use it; else use `buffer_delta`. -/
def compute_starttime_search (mins prevs : Option ℤ) (buffer_delta : ℤ) : ℤ :=
  match mins, prevs with
  | some m, some p => if buffer_delta < m then m else if p < buffer_delta then p else buffer_delta
  | some m, none => if buffer_delta < m then m else buffer_delta
  | none, some p => if p < buffer_delta then p else buffer_delta
  | none, none => buffer_delta

/-- `set_starttime(rule, endtime)` in plain-search mode.  `lastRunEnd`
models the result of `get_starttime(rule)` (the most recent
`elastalert_status` endtime within `old_query_limit`), consulted only on
a fresh start (no `starttime` key). -/
def set_starttime_search (rule : RuleCursorState) (lastRunEnd : Option ℤ) (endtime : ℤ) :
    RuleCursorState :=
  match rule.starttime, lastRunEnd with
  | none, some e =>
      -- fresh start resuming from the persisted previous run
      { rule with starttime := some e, minimum_starttime := some e }
  | _, _ =>
      let s := compute_starttime_search rule.minimum_starttime rule.previous_endtime
        (endtime - rule.buffer_time)
      { rule with starttime := some s }

/-! ### `run_rule` future-start guard

Embeds the early-exit check of `ElastAlerter.run_rule`:
`if ts_now() <= rule['starttime']: return 0` — executed before any
query.  `some 0` models the early `return 0`; `none` models falling
through to the segmented query loop. -/

/-- The future-start guard at the top of `run_rule`. -/
def run_rule_guard (now starttime : ℤ) : Option ℕ :=
  if now ≤ starttime then some 0 else none

/-! ### Exponential realert (`next_alert_time`)

Embeds `ElastAlerter.next_alert_time`.  Durations are in seconds (`ℚ`,
as Python's `seconds(...)` yields a float); the exponent is `ℤ` (it can
reach `-1` through the `exponent - 1` in the cap branch).  The `while`
loop runs while `diff > realert * 2 ** exponent and exponent > 0`; since
each iteration decrements the exponent by one, `exponent.toNat` units of
fuel reproduce it exactly. -/

/-- The `while diff > realert * 2^exp and exp > 0` loop of
`next_alert_time`, driven by explicit fuel (sufficient fuel is supplied
at the call site). -/
def decay_loop (realert : ℚ) : ℚ → ℤ → ℕ → ℚ × ℤ
  | diff, exponent, 0 => (diff, exponent)
  | diff, exponent, n + 1 =>
      if realert * 2 ^ exponent < diff ∧ 0 < exponent then
        decay_loop realert (diff - realert * 2 ^ exponent) (exponent - 1) n
      else
        (diff, exponent)

/-- `next_alert_time(rule, name, timestamp)`.  `cached` models
`silence_cache.get(name)`, `exponential_realert` models the optional
rule setting.  Returns the `(until, exponent)` pair. -/
def next_alert_time (realert : ℚ) (exponential_realert : Option ℚ)
    (cached : Option (ℚ × ℤ)) (timestamp : ℚ) : ℚ × ℤ :=
  match cached with
  | none => (timestamp + realert, 0)
  | some (last_until, exponent) =>
    match exponential_realert with
    | none => (timestamp + realert, 0)
    | some er =>
      let diff := timestamp - last_until
      let exponent' :=
        if diff < realert * 2 ^ exponent then exponent + 1
        else (decay_loop realert diff exponent exponent.toNat).2
      let wait := realert * 2 ^ exponent'
      if er ≤ wait then (timestamp + er, exponent' - 1)
      else (timestamp + wait, exponent')

/-- The decay loop as the claim words it: "repeatedly subtracts
`r·2^exp` from `diff` and decrements `exp` while `diff > r·2^exp` and
`exp > 0`" — written by well-founded recursion on the exponent. -/
def claim_decay (realert : ℚ) (diff : ℚ) (exponent : ℤ) : ℚ × ℤ :=
  if h : realert * 2 ^ exponent < diff ∧ 0 < exponent then
    claim_decay realert (diff - realert * 2 ^ exponent) (exponent - 1)
  else
    (diff, exponent)
termination_by exponent.toNat
decreasing_by
  omega

/-- `next_alert_time` as described by claim C2, word for word: compute
`diff = now - last_until`; if `diff < r·2^exp` increment `exp`, else run
the decay loop; with `wait = r·2^exp` return `(now + E, exp - 1)` when
`wait ≥ E`, else `(now + wait, exp)`; and `(now + r, 0)` for an uncached
key or a rule without `exponential_realert`. -/
def claim_next_alert_time (realert : ℚ) (exponential_realert : Option ℚ)
    (cached : Option (ℚ × ℤ)) (now : ℚ) : ℚ × ℤ :=
  match cached with
  | none => (now + realert, 0)
  | some (last_until, exponent) =>
    match exponential_realert with
    | none => (now + realert, 0)
    | some er =>
      let diff := now - last_until
      let exponent' :=
        if diff < realert * 2 ^ exponent then exponent + 1
        else (claim_decay realert diff exponent).2
      let wait := realert * 2 ^ exponent'
      if er ≤ wait then (now + er, exponent' - 1)
      else (now + wait, exponent')

/-! ### Silence check (`is_silenced`)

Embeds `ElastAlerter.is_silenced`.  The in-memory `silence_cache` is an
association list `key → (until, exponent)`; the durable writeback
silence storage is abstracted as a lookup `store : String → Option (ℚ × ℤ)`
returning the newest `silence` document for a key (`none` when the
search returns no hits).  The result records the boolean answer, the
cache after the call, and whether the writeback store was consulted. -/

/-- Remove a key from an association-list dict (`dict.pop(key, None)`). -/
def erase_key {α : Type} (key : String) (cache : List (String × α)) : List (String × α) :=
  cache.filter (fun kv => kv.1 ≠ key)

/-- Outcome of one `is_silenced` call. -/
structure SilenceResult where
  silenced : Bool
  cache : List (String × ℚ × ℤ)
  consulted : Bool
  deriving Repr, DecidableEq

/-- The part of `is_silenced` after the cache check: early `return False`
in debug mode, otherwise the writeback query for the newest silence doc,
the cache write-through, and `now < until`. -/
def is_silenced_fallthrough (debug : Bool) (cache : List (String × ℚ × ℤ))
    (store : String → Option (ℚ × ℤ)) (rule_name : String) (now : ℚ) : SilenceResult :=
  if debug then ⟨false, cache, false⟩
  else
    match store rule_name with
    | some (until_ts, exponent) =>
      let cache' :=
        match cache.lookup rule_name with
        | none => (rule_name, until_ts, exponent) :: cache
        | some (_, oldExp) => (rule_name, until_ts, oldExp) :: erase_key rule_name cache
      ⟨decide (now < until_ts), cache', true⟩
    | none => ⟨false, cache, true⟩

/-- `is_silenced(rule_name)`: cached-and-fresh returns true; a cached
expired entry is evicted and falls through; otherwise fall through to the
writeback query. -/
def is_silenced (debug : Bool) (cache : List (String × ℚ × ℤ))
    (store : String → Option (ℚ × ℤ)) (rule_name : String) (now : ℚ) : SilenceResult :=
  match cache.lookup rule_name with
  | some (until_ts, _) =>
    if now < until_ts then ⟨true, cache, false⟩
    else is_silenced_fallthrough debug (erase_key rule_name cache) store rule_name now
  | none => is_silenced_fallthrough debug cache store rule_name now

/-! ### Aggregation grouping (`add_aggregated_alert`)

Embeds the state effects of `ElastAlerter.add_aggregated_alert` on the
rule's `current_aggregate_id` and `aggregate_alert_time` maps.
`pending` models the result of `find_pending_aggregate_alert` (a
pre-existing pending aggregate document: its `_id` and `alert_time`);
`computed_alert_time` models the freshly computed deadline of the
no-pending branch; `writeback_id` models the `_id` returned by
persisting the match (`none` when the writeback fails). -/

/-- State of the two aggregation maps of a rule. -/
structure AggState where
  current_aggregate_id : List (String × String)
  aggregate_alert_time : List (String × ℚ)
  deriving Repr, DecidableEq

/-- `add_aggregated_alert(match, rule)`, restricted to its effect on the
two aggregation maps; also returns the `agg_id` recorded on the persisted
match document (`none` for the first document of a new group). -/
def add_aggregated_alert (st : AggState) (key : String) (pending : Option (String × ℚ))
    (computed_alert_time : ℚ) (compare_dt : ℚ) (writeback_id : Option String) :
    AggState × Option String :=
  let open_new : Bool :=
    (st.current_aggregate_id.lookup key).isNone ||
      (match st.aggregate_alert_time.lookup key with
       | some t => decide (t < compare_dt)
       | none => false)
  if open_new then
    match pending with
    | some (pid, ptime) =>
      -- adopt the pending aggregate: note the wholesale replacement of
      -- `current_aggregate_id` by a singleton dict
      (⟨[(key, pid)], (key, ptime) :: erase_key key st.aggregate_alert_time⟩, some pid)
    | none =>
      let att := (key, computed_alert_time) :: erase_key key st.aggregate_alert_time
      match writeback_id with
      | some rid => (⟨(key, rid) :: erase_key key st.current_aggregate_id, att⟩, none)
      | none => (⟨st.current_aggregate_id, att⟩, none)
  else
    (st, st.current_aggregate_id.lookup key)

/-! ### Alert dispatch (`send_alert` / `get_alert_body`), non-debug path

An alerter call either returns normally or raises an `EAException`
carrying a message; an alerter is modelled by its outcome:
`none` = returned normally, `some msg` = raised `EAException(msg)`.
The `for alert in rule['alert']` loop catches each exception, records
its text, and continues with the next alerter. -/

/-- One persisted `elastalert` document, restricted to the outcome
fields the claim is about.  `alert_exception = none` models key absence
(`get_alert_body` only sets the key when `alert_sent` is false). -/
structure AlertBody where
  alert_sent : Bool
  alert_exception : Option String
  deriving Repr, DecidableEq

/-- The alerter loop of `send_alert`: runs down the alerter list,
accumulating the trace of invoked alerters (in order), the `alert_sent`
flag, and the last captured exception text. -/
def send_alert_loop : List (Option String) → Bool → Option String → List (Option String) →
    List (Option String) × Bool × Option String
  | [], sent, exc, trace => (trace.reverse, sent, exc)
  | a :: rest, sent, exc, trace =>
    match a with
    | some msg => send_alert_loop rest sent (some msg) (a :: trace)
    | none => send_alert_loop rest true exc (a :: trace)

/-- `get_alert_body(match, rule, alert_sent, alert_time, alert_exception)`,
restricted to the outcome fields: the `alert_exception` key is written
only when the alert was not sent. -/
def get_alert_body (alert_sent : Bool) (alert_exception : Option String) : AlertBody :=
  ⟨alert_sent, if alert_sent then none else alert_exception⟩

/-- `send_alert(matches, rule)` outside debug mode, after enhancements:
run every alerter, then persist one `elastalert` document per match.
Returns the trace of invoked alerters and the persisted documents. -/
def send_alert (ms : List ℕ) (alerters : List (Option String)) :
    List (Option String) × List AlertBody :=
  let r := send_alert_loop alerters false none []
  (r.1, ms.map (fun _ => get_alert_body r.2.1 r.2.2))

/-! ### Backend query error handling (`get_hits` / `run_query`)

Embeds the `except ElasticsearchException` branch of `get_hits` and the
`if data is None: return False` of `run_query`.  Error text is a
`List Char` (Python `str(e)`); `handle_error` persists the message in an
`elastalert_error` document. -/

/-- The error-text truncation of `get_hits`:
`str(e)[:1024] + '... (%d characters removed)' % (len(str(e)) - 1024)`
when the text exceeds 1024 characters. -/
def truncate_error_text (e : List Char) : List Char :=
  if 1024 < e.length then
    e.take 1024 ++ ("... (".toList ++ (Nat.repr (e.length - 1024)).toList
      ++ " characters removed)".toList)
  else e

/-- The `except ElasticsearchException` branch of `get_hits`: persists
`'Error running query: %s' % e` (with `e` truncated) through
`handle_error` and returns `None`.  Result: `(return value, persisted
elastalert_error message)`. -/
def get_hits_on_error (e : List Char) : Option (List ℕ) × List Char :=
  (none, "Error running query: ".toList ++ truncate_error_text e)

/-- The `if data is None: return False` check of `run_query`. -/
def run_query_outcome (data : Option (List ℕ)) : Bool :=
  match data with
  | none => false
  | some _ => true

/-! ### Dedupe by `_id` (`remove_duplicate_events` / `run_query`)

A processed hit is modelled by its `_id` and its (already normalized)
timestamp-field value; `processed_hits` is an association list
`_id → timestamp`. -/

/-- A processed hit: `_id` plus the value at the rule's
`timestamp_field`. -/
structure Event where
  id : String
  ts : ℚ
  deriving Repr, DecidableEq

/-- `remove_duplicate_events(data, rule)`: drop events whose `_id` is in
`processed_hits` at the moment they are examined; record every
survivor's `_id → timestamp`.  Returns `(new_events, processed_hits)`. -/
def remove_duplicate_events : List Event → List (String × ℚ) → List Event × List (String × ℚ)
  | [], ph => ([], ph)
  | e :: rest, ph =>
    if (ph.lookup e.id).isSome then remove_duplicate_events rest ph
    else
      let r := remove_duplicate_events rest ((e.id, e.ts) :: ph)
      (e :: r.1, r.2)

/-- The search-mode dedupe step of `run_query`:
`data = remove_duplicate_events(data, rule)` followed by
`num_dupes += old_len - len(data)`.  Returns the surviving events, the
updated `processed_hits`, and the updated dupe counter. -/
def run_query_dedupe (data : List Event) (ph : List (String × ℚ)) (num_dupes : ℕ) :
    List Event × List (String × ℚ) × ℕ :=
  let r := remove_duplicate_events data ph
  (r.1, r.2, num_dupes + (data.length - r.1.length))

/-! ### Blacklist/whitelist filter enhancement (`enhance_filter`) -/

/-- A filter element of `rule['filter']`.  The claims only distinguish
the appended `query_string` filter; pre-existing filters are opaque. -/
inductive EsFilter
  | query_string (query : String)
  | opaque_filter (data : String)
  deriving Repr, DecidableEq

/-- The rule attributes `enhance_filter` consults. -/
structure ListFilterRule where
  filter : List EsFilter
  blacklist : Option (List String)
  whitelist : Option (List String)
  compare_key : String
  filter_by_list : Bool
  deriving Repr, DecidableEq

/-- Rendering of one blacklist/whitelist term:
`compare_key:"term"`, except that a term surrounded by `/…/` is emitted
unquoted (regular expression).  `term.startswith('/')` and
`term.endswith('/')` are modelled on the character list (the affix is a
single character). -/
def render_list_term (compare_key term : String) : String :=
  if !(term.toList.head? == some '/') || !(term.toList.getLast? == some '/') then
    compare_key ++ ":\"" ++ term ++ "\""
  else
    compare_key ++ ":" ++ term

/-- `enhance_filter(rule)`: appends one `query_string` filter built from
the blacklist (`t1 OR t2 …`) or whitelist (`NOT t1 AND NOT t2 …`);
a present blacklist takes precedence. -/
def enhance_filter (rule : ListFilterRule) : List EsFilter :=
  if !rule.filter_by_list then rule.filter
  else
    match rule.blacklist, rule.whitelist with
    | some bl, _ =>
      rule.filter ++
        [.query_string (String.intercalate " OR "
          (bl.map (render_list_term rule.compare_key)))]
    | none, some wl =>
      rule.filter ++
        [.query_string ("NOT " ++ String.intercalate " AND NOT "
          (wl.map (render_list_term rule.compare_key)))]
    | none, none => rule.filter

/-! ### Hit post-processing error branch (`process_hits`)

A raw hit carries the looked-up value of `rule['timestamp_field']`
(a string, or `none` when absent); Python truthiness of that value is
`tsRaw ≠ none` and `tsRaw ≠ some ""`. -/

/-- A raw hit as seen by `process_hits`, restricted to the fields the
claim is about. -/
structure RawHit where
  id : String
  tsRaw : Option String
  deriving Repr, DecidableEq

/-- Python falsiness of the looked-up timestamp value (`not ts`). -/
def ts_falsy : Option String → Bool
  | none => true
  | some s => s.isEmpty

/-- The `EAException` message raised by `process_hits`. -/
def no_timestamp_error : String :=
  "Error: No timestamp was found for hit. '_source_enabled' is set to false, check your mappings for stored fields"

/-- Processing of one hit in `process_hits`, restricted to the
missing-timestamp error branch (`if not ts and not rule['_source_enabled']`);
the remaining per-hit transformations do not affect the claim and are
modelled as the identity. -/
def process_hit (source_enabled : Bool) (h : RawHit) : Except String RawHit :=
  if ts_falsy h.tsRaw && !source_enabled then .error no_timestamp_error
  else .ok h

/-- `process_hits(rule, hits)`: processes hits in order; a raised
`EAException` aborts the whole batch. -/
def process_hits (source_enabled : Bool) : List RawHit → Except String (List RawHit)
  | [] => .ok []
  | h :: rest =>
    match process_hit source_enabled h with
    | .error e => .error e
    | .ok h' =>
      match process_hits source_enabled rest with
      | .error e => .error e
      | .ok hs => .ok (h' :: hs)

/-- A concrete writeback silence store holding, for every key, a newest
silence document `until = 10, exponent = 0` (used to evaluate
`is_silenced` at concrete inputs). -/
def silence_store_ten : String → Option (ℚ × ℤ) := fun _ => some (10, 0)

/-!
## Theorems

One theorem (plus, where needed, a counterexample and a witness) per
claim, with shared helper lemmas in between.
-/

/-! ### Claim C1 — window start vs. resume point and previous endtime -/

/-- Claim C1 as stated is false: with `buffer_time = 50`, `endtime = 100`
(so `buffer_delta = 50`), `minimum_starttime = 40` and
`previous_endtime = 60`, `set_starttime` picks `buffer_delta = 50`,
which is smaller than `max(minimum_starttime, previous_endtime) = 60`:
the new window starts before the previous endtime (windows overlap by
design in buffer-time mode). -/
theorem C1_counterexample :
    (set_starttime_search ⟨some 55, some 40, some 60, 50⟩ none 100).starttime = some 50 ∧
    ¬ ((50 : ℤ) ≥ max 40 60) := by
  constructor
  · rfl
  · decide

/-- Claim C1, amended: in plain-search mode with prior state
`minimum_starttime = m` and `previous_endtime = p` (where `m ≤ p`, as in
every reachable state), the computed starttime is exactly
`max m (min p (endtime - buffer_time))`; hence it never precedes the
persisted resume point (`m ≤ s`) and never leaves a gap after the
previous window (`s ≤ p`), but it may overlap the previous window. -/
theorem C1_amended (st m p bufferT endtime : ℤ) (lastRunEnd : Option ℤ) (h : m ≤ p) :
    (set_starttime_search ⟨some st, some m, some p, bufferT⟩ lastRunEnd endtime).starttime
      = some (max m (min p (endtime - bufferT))) ∧
    m ≤ max m (min p (endtime - bufferT)) ∧
    max m (min p (endtime - bufferT)) ≤ p := by
  refine ⟨?_, ?_, ?_⟩
  · have e1 : compute_starttime_search (some m) (some p) (endtime - bufferT)
        = if endtime - bufferT < m then m
          else if p < endtime - bufferT then p else endtime - bufferT := rfl
    show some (compute_starttime_search (some m) (some p) (endtime - bufferT)) = _
    rw [e1]
    congr 1
    split_ifs <;> omega
  · omega
  · omega

/-- Witness for `C1_amended` at `m = 10`, `p = 20`, `buffer_time = 5`,
`endtime = 100`. -/
theorem C1_amended_witness :
    (10 : ℤ) ≤ 20 ∧
    ((set_starttime_search ⟨some 0, some 10, some 20, 5⟩ none 100).starttime
        = some (max 10 (min 20 (100 - 5))) ∧
      (10 : ℤ) ≤ max 10 (min 20 (100 - 5)) ∧
      max (10 : ℤ) (min 20 (100 - 5)) ≤ 20) :=
  ⟨by decide, C1_amended 0 10 20 5 100 none (by decide)⟩

/-! ### Claim C6 — `run_rule` future-start guard -/

/-- Claim C6 as stated is false at `starttime = now`: `run_rule` checks
`ts_now() <= rule['starttime']`, so with `now = starttime = 0` it
returns 0 without querying although the starttime is not in the future
(`¬ starttime > now`). -/
theorem C6_counterexample :
    run_rule_guard 0 0 = some 0 ∧ ¬ ((0 : ℤ) > 0) := by
  constructor
  · rfl
  · decide

/-- Claim C6, amended: `run_rule` returns 0 without executing any query
exactly when `starttime ≥ now` (the guard also fires at equality); for
every `starttime < now` it proceeds to the segmented query loop. -/
theorem C6_amended (now starttime : ℤ) :
    (run_rule_guard now starttime = some 0 ↔ starttime ≥ now) ∧
    (run_rule_guard now starttime = none ↔ starttime < now) := by
  unfold run_rule_guard
  by_cases h : now ≤ starttime
  · rw [if_pos h]
    refine ⟨⟨fun _ => by omega, fun _ => rfl⟩,
      ⟨fun h2 => Option.noConfusion h2, fun h2 => absurd h (by omega)⟩⟩
  · rw [if_neg h]
    refine ⟨⟨fun h2 => Option.noConfusion h2, fun h2 => absurd h2 h⟩,
      ⟨fun _ => by omega, fun _ => rfl⟩⟩

/-! ### Claim C2 — exponential realert computation -/

/-- Sufficient fuel makes the fuelled decay loop agree with the
well-founded form: the loop only continues while the exponent is
positive and decrements it each iteration, so `exponent.toNat` steps
always suffice. -/
theorem decay_loop_eq_claim_decay (realert : ℚ) :
    ∀ (n : ℕ) (diff : ℚ) (exponent : ℤ), exponent.toNat ≤ n →
      decay_loop realert diff exponent n = claim_decay realert diff exponent := by
  intro n
  induction n with
  | zero =>
    intro diff exponent hn
    rw [claim_decay, dif_neg]
    · rfl
    · rintro ⟨_, h2⟩
      omega
  | succ n ih =>
    intro diff exponent hn
    rw [claim_decay]
    by_cases h : realert * 2 ^ exponent < diff ∧ 0 < exponent
    · rw [dif_pos h]
      show (if realert * 2 ^ exponent < diff ∧ 0 < exponent then
          decay_loop realert (diff - realert * 2 ^ exponent) (exponent - 1) n
        else (diff, exponent)) = _
      rw [if_pos h]
      exact ih _ _ (by omega)
    · rw [dif_neg h]
      show (if realert * 2 ^ exponent < diff ∧ 0 < exponent then
          decay_loop realert (diff - realert * 2 ^ exponent) (exponent - 1) n
        else (diff, exponent)) = _
      rw [if_neg h]

/-- Claim C2: `next_alert_time` computes exactly what the claim
describes — for a cached entry under `exponential_realert`, it takes
`diff = now - last_until`, bumps the exponent when `diff < r·2^exp`,
otherwise runs the subtract-and-decrement loop while `diff > r·2^exp`
and `exp > 0`; with `wait = r·2^exp` it returns `(now + E, exp - 1)`
when `wait ≥ E` and `(now + wait, exp)` otherwise; and it returns
`(now + r, 0)` for an uncached key or a rule without
`exponential_realert`. -/
theorem C2_next_alert_time_matches_claim (realert : ℚ) (exponential_realert : Option ℚ)
    (cached : Option (ℚ × ℤ)) (now : ℚ) :
    next_alert_time realert exponential_realert cached now
      = claim_next_alert_time realert exponential_realert cached now := by
  cases cached with
  | none => rfl
  | some c =>
    obtain ⟨last_until, exponent⟩ := c
    cases exponential_realert with
    | none => rfl
    | some er =>
      simp only [next_alert_time, claim_next_alert_time]
      rw [decay_loop_eq_claim_decay realert exponent.toNat (now - last_until) exponent
        (le_refl _)]

/-! ### Claim C3 — silence cache vs. durable silence storage -/

/-- Looking up an erased key yields nothing. -/
theorem lookup_erase_key {α : Type} (key : String) (l : List (String × α)) :
    List.lookup key (erase_key key l) = none := by
  induction l with
  | nil => rfl
  | cons kv rest ih =>
    obtain ⟨k', v⟩ := kv
    by_cases h : k' = key
    · simpa [erase_key, List.filter_cons, h] using ih
    · simp only [erase_key, List.filter_cons] at ih ⊢
      rw [if_pos (by simp [h])]
      simpa [List.lookup, show (key == k') = false by simp [Ne.symm h]] using ih

/-- Erasing one key leaves every other key's binding unchanged. -/
theorem lookup_erase_key_ne {α : Type} (key k : String) (l : List (String × α)) (h : k ≠ key) :
    List.lookup k (erase_key key l) = List.lookup k l := by
  induction l with
  | nil => rfl
  | cons kv rest ih =>
    obtain ⟨k', v⟩ := kv
    by_cases h2 : k' = key
    · subst h2
      simp only [erase_key, List.filter_cons] at ih ⊢
      rw [if_neg (by simp)]
      simpa [List.lookup, show (k == k') = false by simp [h]] using ih
    · simp only [erase_key, List.filter_cons] at ih ⊢
      rw [if_pos (by simp [h2])]
      by_cases h3 : k = k'
      · simp [List.lookup, h3]
      · simpa [List.lookup, show (k == k') = false by simp [h3]] using ih

/-- Claim C3 as stated is false in debug mode: with an empty cache (a
cache miss) and a durable silence document `until = 10` for the key at
`now = 5 < 10`, `is_silenced` run with `--debug` returns false without
consulting the writeback store — durable storage is not always
consulted on a miss. -/
theorem C3_counterexample :
    (is_silenced true [] silence_store_ten "k" 5).consulted = false ∧
    (is_silenced true [] silence_store_ten "k" 5).silenced = false ∧
    silence_store_ten "k" = some (10, 0) ∧ (5 : ℚ) < 10 := by
  refine ⟨rfl, rfl, rfl, by norm_num⟩

/-- Claim C3, amended: outside debug mode, `is_silenced(key)` returns
true (without touching durable storage) when a cached entry has
`now < until`; in every case where the cache does not decide (miss, or
a cached entry that is expired and therefore evicted), the durable
writeback silence storage is consulted: its newest document `(u, e)` is
cached and `now < u` is returned, and a missing document yields false. -/
theorem C3_amended (cache : List (String × ℚ × ℤ)) (store : String → Option (ℚ × ℤ))
    (key : String) (now : ℚ) :
    (∀ u e, List.lookup key cache = some (u, e) → now < u →
        (is_silenced false cache store key now).silenced = true ∧
        (is_silenced false cache store key now).consulted = false ∧
        (is_silenced false cache store key now).cache = cache) ∧
    ((List.lookup key cache = none ∨
        (∃ u e, List.lookup key cache = some (u, e) ∧ ¬ now < u)) →
      (is_silenced false cache store key now).consulted = true ∧
      (∀ u e, store key = some (u, e) →
          (is_silenced false cache store key now).silenced = decide (now < u) ∧
          List.lookup key (is_silenced false cache store key now).cache = some (u, e)) ∧
      (store key = none → (is_silenced false cache store key now).silenced = false)) := by
  constructor
  · intro u e hc hnow
    simp [is_silenced, hc, hnow]
  · intro hcase
    rcases hcase with hnone | ⟨u, e, hc, hnot⟩
    · cases hstore : store key with
      | none => simp [is_silenced, is_silenced_fallthrough, hnone, hstore]
      | some ue =>
        obtain ⟨u', e'⟩ := ue
        refine ⟨?_, ?_, ?_⟩
        · simp [is_silenced, is_silenced_fallthrough, hnone, hstore]
        · intro u2 e2 hs2
          simp only [Option.some.injEq, Prod.mk.injEq] at hs2
          obtain ⟨rfl, rfl⟩ := hs2
          constructor
          · simp [is_silenced, is_silenced_fallthrough, hnone, hstore]
          · simp [is_silenced, is_silenced_fallthrough, hnone, hstore, List.lookup]
        · intro hs2
          exact Option.noConfusion hs2
    · cases hstore : store key with
      | none =>
        simp [is_silenced, is_silenced_fallthrough, hc, hnot, hstore]
      | some ue =>
        obtain ⟨u', e'⟩ := ue
        refine ⟨?_, ?_, ?_⟩
        · simp [is_silenced, is_silenced_fallthrough, hc, hnot, hstore]
        · intro u2 e2 hs2
          simp only [Option.some.injEq, Prod.mk.injEq] at hs2
          obtain ⟨rfl, rfl⟩ := hs2
          constructor
          · simp [is_silenced, is_silenced_fallthrough, hc, hnot, hstore,
              lookup_erase_key]
          · simp [is_silenced, is_silenced_fallthrough, hc, hnot, hstore,
              lookup_erase_key, List.lookup]
        · intro hs2
          exact Option.noConfusion hs2

/-- Witness for `C3_amended`: cache miss, store holds `until = 10`,
`now = 5`. -/
theorem C3_amended_witness :
    List.lookup "k" ([] : List (String × ℚ × ℤ)) = none ∧
    (is_silenced false [] silence_store_ten "k" 5).consulted = true ∧
    (is_silenced false [] silence_store_ten "k" 5).silenced = decide ((5 : ℚ) < 10) ∧
    List.lookup "k" (is_silenced false [] silence_store_ten "k" 5).cache = some (10, 0) := by
  have h := (C3_amended [] silence_store_ten "k" 5).2 (Or.inl rfl)
  exact ⟨rfl, h.1, (h.2.1 10 0 rfl).1, (h.2.1 10 0 rfl).2⟩

/-! ### Claim C4 — frame effect of adopting a pending aggregate -/

/-- Claim C4 as stated is false: adopting a pending aggregate for key
`"k"` replaces the whole `current_aggregate_id` dict by a singleton, so
the pre-existing entry for key `"other"` is gone after the call. -/
theorem C4_counterexample :
    List.lookup "other" ((add_aggregated_alert ⟨[("other", "id0")], []⟩ "k"
        (some ("id1", 7)) 0 0 none).1).current_aggregate_id = none ∧
    List.lookup "other" ([("other", "id0")] : List (String × String)) = some "id0" := by
  exact ⟨rfl, rfl⟩

/-- Claim C4, amended: when `add_aggregated_alert` opens a new group for
key `K` by adopting a pending aggregate `(pid, ptime)` found in
writeback, the rule's `current_aggregate_id` map becomes the singleton
`{K ↦ pid}` — the entry for `K` is set and the entry of every other key
is dropped (not preserved); the `aggregate_alert_time` map, by contrast,
is updated only at `K` and unchanged at every other key. -/
theorem C4_amended (st : AggState) (key pid : String) (ptime cat cdt : ℚ)
    (wid : Option String)
    (hopen : List.lookup key st.current_aggregate_id = none ∨
      (∃ t, List.lookup key st.aggregate_alert_time = some t ∧ t < cdt)) :
    ((add_aggregated_alert st key (some (pid, ptime)) cat cdt wid).1).current_aggregate_id
        = [(key, pid)] ∧
    (∀ k, k ≠ key →
      List.lookup k ((add_aggregated_alert st key (some (pid, ptime)) cat cdt
          wid).1).current_aggregate_id = none) ∧
    List.lookup key ((add_aggregated_alert st key (some (pid, ptime)) cat cdt
        wid).1).aggregate_alert_time = some ptime ∧
    (∀ k, k ≠ key →
      List.lookup k ((add_aggregated_alert st key (some (pid, ptime)) cat cdt
          wid).1).aggregate_alert_time = List.lookup k st.aggregate_alert_time) ∧
    (add_aggregated_alert st key (some (pid, ptime)) cat cdt wid).2 = some pid := by
  have hres : add_aggregated_alert st key (some (pid, ptime)) cat cdt wid
      = (⟨[(key, pid)], (key, ptime) :: erase_key key st.aggregate_alert_time⟩, some pid) := by
    unfold add_aggregated_alert
    rcases hopen with h | ⟨t, ht, hlt⟩
    · simp [h]
    · simp [ht, hlt]
  rw [hres]
  refine ⟨rfl, ?_, ?_, ?_, rfl⟩
  · intro k hk
    simp [List.lookup, show (k == key) = false by simp [hk]]
  · simp [List.lookup]
  · intro k hk
    have hbeq : (k == key) = false := by simp [hk]
    rw [List.lookup, hbeq]
    exact lookup_erase_key_ne key k st.aggregate_alert_time hk

/-- Witness for `C4_amended`: a state holding entries for another key
`"other"`, adopting pending aggregate `("id1", 7)` for key `"k"`. -/
theorem C4_amended_witness :
    List.lookup "k" ([("other", "id0")] : List (String × String)) = none ∧
    ((add_aggregated_alert ⟨[("other", "id0")], [("other", 3)]⟩ "k" (some ("id1", 7)) 0 0
        none).1).current_aggregate_id = [("k", "id1")] ∧
    List.lookup "other" ((add_aggregated_alert ⟨[("other", "id0")], [("other", 3)]⟩ "k"
        (some ("id1", 7)) 0 0 none).1).current_aggregate_id = none ∧
    List.lookup "k" ((add_aggregated_alert ⟨[("other", "id0")], [("other", 3)]⟩ "k"
        (some ("id1", 7)) 0 0 none).1).aggregate_alert_time = some 7 ∧
    List.lookup "other" ((add_aggregated_alert ⟨[("other", "id0")], [("other", 3)]⟩ "k"
        (some ("id1", 7)) 0 0 none).1).aggregate_alert_time
      = List.lookup "other" ([("other", (3 : ℚ))] : List (String × ℚ)) ∧
    (add_aggregated_alert ⟨[("other", "id0")], [("other", 3)]⟩ "k" (some ("id1", 7)) 0 0
        none).2 = some "id1" := by
  have h := C4_amended ⟨[("other", "id0")], [("other", 3)]⟩ "k" "id1" 7 0 0 none (Or.inl rfl)
  exact ⟨rfl, h.1, h.2.1 "other" (by decide), h.2.2.1, h.2.2.2.1 "other" (by decide),
    h.2.2.2.2⟩

/-! ### Claim C5 — alerter loop, `alert_sent`, `alert_exception` -/

/-- The alerter loop visits every alerter: its trace is the accumulator
followed by the whole remaining list, in order, regardless of raised
exceptions. -/
theorem send_alert_loop_trace (l : List (Option String)) :
    ∀ (sent : Bool) (exc : Option String) (tr : List (Option String)),
      (send_alert_loop l sent exc tr).1 = tr.reverse ++ l := by
  induction l with
  | nil => intro sent exc tr; simp [send_alert_loop]
  | cons a rest ih =>
    intro sent exc tr
    cases a with
    | some msg => simp [send_alert_loop, ih]
    | none => simp [send_alert_loop, ih]

/-- The loop's `alert_sent` flag is true iff it started true or some
alerter returned without raising. -/
theorem send_alert_loop_sent (l : List (Option String)) :
    ∀ (sent : Bool) (exc : Option String) (tr : List (Option String)),
      (send_alert_loop l sent exc tr).2.1 = (sent || l.any (fun a => a.isNone)) := by
  induction l with
  | nil => intro sent exc tr; simp [send_alert_loop]
  | cons a rest ih =>
    intro sent exc tr
    cases a with
    | some msg => simp [send_alert_loop, ih]
    | none => simp [send_alert_loop, ih]

/-- When every alerter raises, the loop's recorded exception is the text
of one of the raised exceptions. -/
theorem send_alert_loop_exc (l : List (Option String)) :
    ∀ (sent : Bool) (exc : Option String) (tr : List (Option String)),
      l ≠ [] → (∀ a ∈ l, a ≠ none) →
      (send_alert_loop l sent exc tr).2.2 ∈ l ∧
      (send_alert_loop l sent exc tr).2.2 ≠ none := by
  induction l with
  | nil => intro _ _ _ hne _; exact absurd rfl hne
  | cons a rest ih =>
    intro sent exc tr _ hall
    have ha : a ≠ none := hall a (List.mem_cons_self a rest)
    obtain ⟨msg, rfl⟩ := Option.ne_none_iff_exists'.mp ha
    cases rest with
    | nil =>
      refine ⟨?_, ?_⟩
      · show (send_alert_loop [] sent (some msg) _).2.2 ∈ _
        simp [send_alert_loop]
      · show (send_alert_loop [] sent (some msg) _).2.2 ≠ none
        simp [send_alert_loop]
    | cons b rest' =>
      have hr := ih sent (some msg) (some msg :: tr) (by simp)
        (fun x hx => hall x (List.mem_cons_of_mem _ hx))
      refine ⟨List.mem_cons_of_mem _ hr.1, hr.2⟩

/-- Claim C5: outside debug mode, `send_alert` invokes every alerter in
list order even when earlier alerters raise; `alert_sent` in the
persisted documents is true iff at least one alerter ran without
raising; and when no alerter succeeded, each match's persisted document
records the text of a raised alerter exception as `alert_exception`. -/
theorem C5_send_alert (ms : List ℕ) (alerters : List (Option String)) :
    (send_alert ms alerters).1 = alerters ∧
    ((send_alert_loop alerters false none []).2.1 = true ↔ none ∈ alerters) ∧
    (∀ b ∈ (send_alert ms alerters).2,
      b.alert_sent = (send_alert_loop alerters false none []).2.1) ∧
    (alerters ≠ [] → (∀ a ∈ alerters, a ≠ none) →
      (send_alert_loop alerters false none []).2.2 ∈ alerters ∧
      (send_alert_loop alerters false none []).2.2 ≠ none ∧
      ∀ b ∈ (send_alert ms alerters).2,
        b.alert_sent = false ∧
        b.alert_exception = (send_alert_loop alerters false none []).2.2) := by
  refine ⟨?_, ?_, ?_, ?_⟩
  · show (send_alert_loop alerters false none []).1 = alerters
    simpa using send_alert_loop_trace alerters false none []
  · rw [send_alert_loop_sent alerters false none []]
    simp [List.any_eq_true, Option.isNone_iff_eq_none]
  · intro b hb
    simp only [send_alert, List.mem_map] at hb
    obtain ⟨_, _, rfl⟩ := hb
    rfl
  · intro hne hall
    obtain ⟨hmem, hnn⟩ := send_alert_loop_exc alerters false none [] hne hall
    have hsent : (send_alert_loop alerters false none []).2.1 = false := by
      rw [send_alert_loop_sent alerters false none []]
      simp only [Bool.false_or, List.any_eq_false]
      intro a ha
      simpa [Option.isNone_iff_eq_none] using hall a ha
    refine ⟨hmem, hnn, ?_⟩
    intro b hb
    simp only [send_alert, List.mem_map] at hb
    obtain ⟨_, _, rfl⟩ := hb
    unfold get_alert_body
    rw [hsent]
    exact ⟨rfl, rfl⟩

/-- Witness for `C5_send_alert`: one match, one alerter that raises
`EAException("boom")`. -/
theorem C5_send_alert_witness :
    ([some "boom"] : List (Option String)) ≠ [] ∧
    (send_alert_loop [some "boom"] false none []).2.2 ∈ ([some "boom"] : List (Option String)) ∧
    (send_alert_loop [some "boom"] false none []).2.2 ≠ none ∧
    (get_alert_body (send_alert_loop [some "boom"] false none []).2.1
        (send_alert_loop [some "boom"] false none []).2.2).alert_sent = false ∧
    (get_alert_body (send_alert_loop [some "boom"] false none []).2.1
        (send_alert_loop [some "boom"] false none []).2.2).alert_exception
      = (send_alert_loop [some "boom"] false none []).2.2 := by
  have h := (C5_send_alert [0] [some "boom"]).2.2.2 (by simp) (by simp)
  have hb := h.2.2 (get_alert_body (send_alert_loop [some "boom"] false none []).2.1
    (send_alert_loop [some "boom"] false none []).2.2) (by simp [send_alert])
  exact ⟨by simp, h.1, h.2.1, hb.1, hb.2⟩

/-! ### Claim C7 — backend error truncation and query failure -/

/-- Claim C7: for a backend error whose text exceeds 1024 characters,
the persisted `elastalert_error` message keeps exactly the first 1024
characters of the error text (plus a note of how many characters were
removed), `get_hits` returns failure (`None`), and the enclosing
`run_query` reports failure. -/
theorem C7_get_hits_error (e : List Char) (h : 1024 < e.length) :
    (get_hits_on_error e).1 = none ∧
    (get_hits_on_error e).2 =
      "Error running query: ".toList ++ (e.take 1024 ++ ("... (".toList
        ++ (Nat.repr (e.length - 1024)).toList ++ " characters removed)".toList)) ∧
    (e.take 1024).length = 1024 ∧
    run_query_outcome (get_hits_on_error e).1 = false := by
  refine ⟨rfl, ?_, ?_, rfl⟩
  · show "Error running query: ".toList ++ truncate_error_text e = _
    rw [truncate_error_text, if_pos h]
  · rw [List.length_take]
    omega

/-- Witness for `C7_get_hits_error` at a 1025-character error text. -/
theorem C7_get_hits_error_witness :
    1024 < (List.replicate 1025 'x').length ∧
    ((get_hits_on_error (List.replicate 1025 'x')).1 = none ∧
      (get_hits_on_error (List.replicate 1025 'x')).2 =
        "Error running query: ".toList ++ ((List.replicate 1025 'x').take 1024 ++ ("... (".toList
          ++ (Nat.repr ((List.replicate 1025 'x').length - 1024)).toList
          ++ " characters removed)".toList)) ∧
      ((List.replicate 1025 'x').take 1024).length = 1024 ∧
      run_query_outcome (get_hits_on_error (List.replicate 1025 'x')).1 = false) :=
  ⟨by rw [List.length_replicate]; omega,
    C7_get_hits_error (List.replicate 1025 'x') (by rw [List.length_replicate]; omega)⟩

/-! ### Claim C8 — `_id` dedupe and `processed_hits` bookkeeping -/

/-- Keys not occurring in the batch keep their `processed_hits` binding
across `remove_duplicate_events`. -/
theorem rde_lookup_preserved (data : List Event) :
    ∀ (ph : List (String × ℚ)) (k : String), k ∉ data.map Event.id →
      List.lookup k (remove_duplicate_events data ph).2 = List.lookup k ph := by
  induction data with
  | nil => intro ph k _; rfl
  | cons e rest ih =>
    intro ph k hk
    have hk1 : k ≠ e.id := by
      intro hkeq
      exact hk (by simp [hkeq])
    have hk2 : k ∉ rest.map Event.id := by
      intro hmem
      exact hk (by simp [hmem])
    show List.lookup k
        (if (List.lookup e.id ph).isSome then remove_duplicate_events rest ph
         else
           let r := remove_duplicate_events rest ((e.id, e.ts) :: ph)
           (e :: r.1, r.2)).2 = _
    by_cases hs : (List.lookup e.id ph).isSome
    · rw [if_pos hs]
      exact ih ph k hk2
    · rw [if_neg hs]
      rw [ih ((e.id, e.ts) :: ph) k hk2]
      simp [List.lookup, show (k == e.id) = false by simp [hk1]]

/-- Existing `processed_hits` bindings survive
`remove_duplicate_events` (insertions only happen for absent keys). -/
theorem rde_lookup_mono (data : List Event) :
    ∀ (ph : List (String × ℚ)) (k : String) (v : ℚ), List.lookup k ph = some v →
      List.lookup k (remove_duplicate_events data ph).2 = some v := by
  induction data with
  | nil => intro ph k v hv; exact hv
  | cons e rest ih =>
    intro ph k v hv
    show List.lookup k
        (if (List.lookup e.id ph).isSome then remove_duplicate_events rest ph
         else
           let r := remove_duplicate_events rest ((e.id, e.ts) :: ph)
           (e :: r.1, r.2)).2 = _
    by_cases hs : (List.lookup e.id ph).isSome
    · rw [if_pos hs]
      exact ih ph k v hv
    · rw [if_neg hs]
      have hk1 : k ≠ e.id := by
        intro hkeq
        apply hs
        rw [← hkeq, hv]
        rfl
      exact ih ((e.id, e.ts) :: ph) k v
        (by simp [List.lookup, show (k == e.id) = false by simp [hk1], hv])

/-- With pairwise-distinct `_id`s, the survivors of
`remove_duplicate_events` are exactly the events whose `_id` was not
already in `processed_hits`. -/
theorem rde_fst_eq_filter (data : List Event) :
    ∀ (ph : List (String × ℚ)), (data.map Event.id).Nodup →
      (remove_duplicate_events data ph).1
        = data.filter (fun e => (List.lookup e.id ph).isNone) := by
  induction data with
  | nil => intro ph _; rfl
  | cons e rest ih =>
    intro ph hnd
    simp only [List.map_cons, List.nodup_cons] at hnd
    obtain ⟨hene, hndrest⟩ := hnd
    show (if (List.lookup e.id ph).isSome then remove_duplicate_events rest ph
         else
           let r := remove_duplicate_events rest ((e.id, e.ts) :: ph)
           (e :: r.1, r.2)).1 = _
    by_cases hs : (List.lookup e.id ph).isSome
    · rw [if_pos hs]
      obtain ⟨v, hv⟩ := Option.isSome_iff_exists.mp hs
      rw [List.filter_cons_of_neg (by rw [hv]; simp)]
      exact ih ph hndrest
    · rw [if_neg hs]
      have hnone : List.lookup e.id ph = none := Option.not_isSome_iff_eq_none.mp hs
      rw [List.filter_cons_of_pos (by rw [hnone]; rfl)]
      show e :: (remove_duplicate_events rest ((e.id, e.ts) :: ph)).1 = _
      rw [ih ((e.id, e.ts) :: ph) hndrest]
      congr 1
      apply List.filter_congr
      intro x hx
      have hxne : x.id ≠ e.id := by
        intro hxeq
        exact hene (hxeq ▸ List.mem_map_of_mem Event.id hx)
      simp [List.lookup, show (x.id == e.id) = false by simp [hxne]]

/-- Survivors' timestamps are recorded: after `remove_duplicate_events`
on a batch with pairwise-distinct `_id`s, every surviving event's `_id`
maps to its timestamp. -/
theorem rde_survivor_lookup (data : List Event) :
    ∀ (ph : List (String × ℚ)), (data.map Event.id).Nodup →
      ∀ e ∈ (remove_duplicate_events data ph).1,
        List.lookup e.id (remove_duplicate_events data ph).2 = some e.ts := by
  induction data with
  | nil => intro ph _ e he; exact absurd he (List.not_mem_nil e)
  | cons a rest ih =>
    intro ph hnd e he
    simp only [List.map_cons, List.nodup_cons] at hnd
    obtain ⟨hane, hndrest⟩ := hnd
    have hshape : remove_duplicate_events (a :: rest) ph
        = if (List.lookup a.id ph).isSome then remove_duplicate_events rest ph
          else
            let r := remove_duplicate_events rest ((a.id, a.ts) :: ph)
            (a :: r.1, r.2) := rfl
    rw [hshape] at he ⊢
    by_cases hs : (List.lookup a.id ph).isSome
    · rw [if_pos hs] at he ⊢
      exact ih ph hndrest e he
    · rw [if_neg hs] at he ⊢
      simp only [List.mem_cons] at he
      rcases he with rfl | he
      · show List.lookup e.id (remove_duplicate_events rest ((e.id, e.ts) :: ph)).2
            = some e.ts
        rw [rde_lookup_preserved rest ((e.id, e.ts) :: ph) e.id hane]
        simp [List.lookup]
      · show List.lookup e.id (remove_duplicate_events rest ((a.id, a.ts) :: ph)).2
            = some e.ts
        exact ih ((a.id, a.ts) :: ph) hndrest e he

/-- Every batch event's `_id` — dropped or kept — is in `processed_hits`
after `remove_duplicate_events`. -/
theorem rde_mem_isSome (data : List Event) :
    ∀ (ph : List (String × ℚ)), ∀ e ∈ data,
      (List.lookup e.id (remove_duplicate_events data ph).2).isSome := by
  induction data with
  | nil => intro ph e he; exact absurd he (List.not_mem_nil e)
  | cons a rest ih =>
    intro ph e he
    simp only [List.mem_cons] at he
    by_cases hs : (List.lookup a.id ph).isSome
    · show (List.lookup e.id
          (if (List.lookup a.id ph).isSome then remove_duplicate_events rest ph
           else
             let r := remove_duplicate_events rest ((a.id, a.ts) :: ph)
             (a :: r.1, r.2)).2).isSome
      rw [if_pos hs]
      rcases he with rfl | he
      · obtain ⟨v, hv⟩ := Option.isSome_iff_exists.mp hs
        rw [rde_lookup_mono rest ph e.id v hv]
        rfl
      · exact ih ph e he
    · show (List.lookup e.id
          (if (List.lookup a.id ph).isSome then remove_duplicate_events rest ph
           else
             let r := remove_duplicate_events rest ((a.id, a.ts) :: ph)
             (a :: r.1, r.2)).2).isSome
      rw [if_neg hs]
      rcases he with rfl | he
      · show (List.lookup e.id (remove_duplicate_events rest ((e.id, e.ts) :: ph)).2).isSome
        rw [rde_lookup_mono rest ((e.id, e.ts) :: ph) e.id e.ts (by simp [List.lookup])]
        rfl
      · exact ih ((a.id, a.ts) :: ph) e he

/-- Splitting a list's length by a boolean predicate. -/
theorem length_filter_add_length_filter_not {α : Type} (p : α → Bool) (l : List α) :
    (l.filter p).length + (l.filter (fun a => !(p a))).length = l.length := by
  induction l with
  | nil => rfl
  | cons a rest ih =>
    by_cases hp : p a
    · rw [List.filter_cons_of_pos hp, List.filter_cons_of_neg (by simp [hp])]
      simp only [List.length_cons]
      omega
    · rw [List.filter_cons_of_neg (by simpa using hp),
        List.filter_cons_of_pos (by simp [Bool.not_eq_true] at hp ⊢; exact hp)]
      simp only [List.length_cons]
      omega

/-- Claim C8: with pairwise-distinct `_id`s in the batch,
`remove_duplicate_events` drops exactly the events whose `_id` is
already in `processed_hits`; every survivor's `_id → timestamp` is
inserted; after the dedupe step of `run_query` every batch hit's `_id`
is in `processed_hits` (survivors with their own timestamp), and
`num_dupes` grows by the number of dropped events. -/
theorem C8_remove_duplicate_events (data : List Event) (ph : List (String × ℚ)) (nd : ℕ)
    (h : (data.map Event.id).Nodup) :
    (run_query_dedupe data ph nd).1 = data.filter (fun e => (List.lookup e.id ph).isNone) ∧
    (∀ e ∈ (run_query_dedupe data ph nd).1,
        List.lookup e.id (run_query_dedupe data ph nd).2.1 = some e.ts) ∧
    (∀ e ∈ data, (List.lookup e.id (run_query_dedupe data ph nd).2.1).isSome) ∧
    (run_query_dedupe data ph nd).2.2
      = nd + (data.filter (fun e => (List.lookup e.id ph).isSome)).length := by
  have h1 := rde_fst_eq_filter data ph h
  refine ⟨h1, ?_, ?_, ?_⟩
  · intro e he
    exact rde_survivor_lookup data ph h e he
  · intro e he
    exact rde_mem_isSome data ph e he
  · show nd + (data.length - (remove_duplicate_events data ph).1.length) = _
    rw [h1]
    have h2 : data.filter (fun e => (List.lookup e.id ph).isNone)
        = data.filter (fun e => !((List.lookup e.id ph).isSome)) := by
      apply List.filter_congr
      intro x _
      cases List.lookup x.id ph <;> rfl
    have h3 := length_filter_add_length_filter_not
      (fun e : Event => (List.lookup e.id ph).isSome) data
    rw [h2]
    omega

/-- Witness for `C8_remove_duplicate_events`: batch of two events with
distinct ids, one already processed. -/
theorem C8_remove_duplicate_events_witness :
    (([⟨"a", 1⟩, ⟨"b", 2⟩] : List Event).map Event.id).Nodup ∧
    (run_query_dedupe [⟨"a", 1⟩, ⟨"b", 2⟩] [("a", 5)] 3).1
      = ([⟨"a", 1⟩, ⟨"b", 2⟩] : List Event).filter
          (fun e => (List.lookup e.id [("a", (5 : ℚ))]).isNone) ∧
    List.lookup "b" (run_query_dedupe [⟨"a", 1⟩, ⟨"b", 2⟩] [("a", 5)] 3).2.1 = some 2 ∧
    (List.lookup "a" (run_query_dedupe [⟨"a", 1⟩, ⟨"b", 2⟩] [("a", 5)] 3).2.1).isSome ∧
    (run_query_dedupe [⟨"a", 1⟩, ⟨"b", 2⟩] [("a", 5)] 3).2.2
      = 3 + (([⟨"a", 1⟩, ⟨"b", 2⟩] : List Event).filter
          (fun e => (List.lookup e.id [("a", (5 : ℚ))]).isSome)).length := by
  have h := C8_remove_duplicate_events [⟨"a", 1⟩, ⟨"b", 2⟩] [("a", 5)] 3 (by decide)
  exact ⟨by decide, h.1, h.2.1 ⟨"b", 2⟩ (by decide), h.2.2.1 ⟨"a", 1⟩ (by decide),
    h.2.2.2⟩

/-! ### Claim C9 — blacklist/whitelist `query_string` enhancement -/

/-- Claim C9: `enhance_filter` appends exactly one `query_string` filter
— `NOT c:"t1" AND NOT c:"t2" …` for a whitelist, `c:"t1" OR c:"t2" …`
for a blacklist; a term that both starts and ends with `/` is emitted
without quotes; in particular `whitelist=["alice","bob"]` with
`compare_key="user"` yields `NOT user:"alice" AND NOT user:"bob"`. -/
theorem C9_enhance_filter (f : List EsFilter) (ts : List String) (ck : String) :
    enhance_filter ⟨f, none, some ts, ck, true⟩
      = f ++ [.query_string ("NOT " ++ String.intercalate " AND NOT "
          (ts.map (render_list_term ck)))] ∧
    enhance_filter ⟨f, some ts, none, ck, true⟩
      = f ++ [.query_string (String.intercalate " OR " (ts.map (render_list_term ck)))] ∧
    render_list_term "user" "/foo/" = "user:/foo/" ∧
    render_list_term "user" "alice" = "user:\"alice\"" ∧
    enhance_filter ⟨f, none, some ["alice", "bob"], "user", true⟩
      = f ++ [.query_string "NOT user:\"alice\" AND NOT user:\"bob\""] := by
  refine ⟨rfl, rfl, by decide, by decide, ?_⟩
  have hq : "NOT " ++ String.intercalate " AND NOT "
      (["alice", "bob"].map (render_list_term "user"))
      = "NOT user:\"alice\" AND NOT user:\"bob\"" := by decide
  show f ++ [.query_string ("NOT " ++ String.intercalate " AND NOT "
    (["alice", "bob"].map (render_list_term "user")))] = _
  rw [hq]

/-! ### Claim C10 — missing-timestamp error in `process_hits` -/

/-- Claim C10: when `_source_enabled` is false, a hit whose looked-up
timestamp value is absent/falsy makes `process_hits` raise an
`EAException` that aborts the whole batch; a hit that does carry a
(non-falsy) timestamp value never takes this error branch, and a batch
of such hits is processed without error. -/
theorem C10_process_hits (hits : List RawHit) (source_enabled : Bool) :
    (∀ h, ts_falsy h.tsRaw = false → process_hit source_enabled h = .ok h) ∧
    ((∃ h ∈ hits, ts_falsy h.tsRaw = true) →
      process_hits false hits = .error no_timestamp_error) ∧
    ((∀ h ∈ hits, ts_falsy h.tsRaw = false) →
      process_hits source_enabled hits = .ok hits) := by
  refine ⟨?_, ?_, ?_⟩
  · intro h hf
    unfold process_hit
    rw [hf]
    rfl
  · intro ⟨h, hmem, hf⟩
    induction hits with
    | nil => exact absurd hmem (List.not_mem_nil h)
    | cons a rest ih =>
      simp only [List.mem_cons] at hmem
      show (match process_hit false a with
        | .error e => .error e
        | .ok h' =>
          match process_hits false rest with
          | .error e => .error e
          | .ok hs => .ok (h' :: hs)) = Except.error no_timestamp_error
      rcases hmem with rfl | hmem
      · unfold process_hit
        rw [hf]
        rfl
      · by_cases hfa : ts_falsy a.tsRaw
        · unfold process_hit
          rw [hfa]
          rfl
        · unfold process_hit
          rw [Bool.not_eq_true] at hfa
          rw [hfa]
          show (match process_hits false rest with
            | .error e => Except.error e
            | .ok hs => .ok (a :: hs)) = Except.error no_timestamp_error
          rw [ih hmem]
  · intro hall
    induction hits with
    | nil => rfl
    | cons a rest ih =>
      have hfa : ts_falsy a.tsRaw = false := hall a (List.mem_cons_self a rest)
      show (match process_hit source_enabled a with
        | .error e => .error e
        | .ok h' =>
          match process_hits source_enabled rest with
          | .error e => .error e
          | .ok hs => .ok (h' :: hs)) = Except.ok (a :: rest)
      unfold process_hit
      rw [hfa]
      show (match process_hits source_enabled rest with
        | .error e => Except.error e
        | .ok hs => .ok (a :: hs)) = Except.ok (a :: rest)
      rw [ih (fun x hx => hall x (List.mem_cons_of_mem a hx))]

/-- Witness for `C10_process_hits`: a one-hit batch with a timestamp,
and a one-hit batch without one. -/
theorem C10_process_hits_witness :
    ts_falsy (RawHit.tsRaw ⟨"h1", some "2024-01-01"⟩) = false ∧
    process_hit false ⟨"h1", some "2024-01-01"⟩ = .ok ⟨"h1", some "2024-01-01"⟩ ∧
    process_hits false [⟨"h1", some "2024-01-01"⟩] = .ok [⟨"h1", some "2024-01-01"⟩] ∧
    process_hits false [⟨"h2", none⟩] = .error no_timestamp_error := by
  have h1 := C10_process_hits [⟨"h1", some "2024-01-01"⟩] false
  have h2 := C10_process_hits [⟨"h2", none⟩] false
  refine ⟨rfl, ?_, ?_, ?_⟩
  · exact h1.1 ⟨"h1", some "2024-01-01"⟩ rfl
  · exact h1.2.2 (by intro x hx; simp only [List.mem_singleton] at hx; rw [hx]; rfl)
  · exact h2.2.1 ⟨⟨"h2", none⟩, List.mem_singleton.mpr rfl, rfl⟩

end ElastAlert
